import Mathlib

/-!
Shallow embedding of the NMT homework repository (`vocab.py` and `run.py`)
together with proofs about the claims on its specification.

Python data is modelled as follows: a `dict` is an insertion-ordered
association list (CPython semantics: updating an existing key keeps its
position, a new key is appended), machine floats that only feed control-flow
comparisons or exact arithmetic are modelled as `Rat`/`Int`, fallible code
returns `Option`, and `exit(0)` / exceptions are explicit constructors of a
result type.
-/

namespace NMTRepo

/-- Python `d[k] = v` on a dict modelled as an insertion-ordered association
list: overwrite in place if `k` is a key, append otherwise. -/
def dictInsert {α β : Type} [DecidableEq α] (d : List (α × β)) (k : α) (v : β) :
    List (α × β) :=
  if (d.map Prod.fst).contains k then
    d.map (fun p => if p.1 = k then (k, v) else p)
  else d ++ [(k, v)]

/-- Python `d.get(k)` : the value at the first occurrence of key `k`. -/
def dictGet? {α β : Type} [DecidableEq α] (d : List (α × β)) (k : α) : Option β :=
  (d.find? (fun p => decide (p.1 = k))).map Prod.snd

/-! ## vocab.py -/

/-- The four special tokens inserted by `VocabEntry.__init__` when no
dictionary is supplied (vocab.py lines 42-46). -/
def defaultWord2Id : List (String × Nat) :=
  [("<pad>", 0), ("<s>", 1), ("</s>", 2), ("<unk>", 3)]

/-- `VocabEntry`: `word2id` dict, cached `unk_id`, inverse dict `id2word`. -/
structure VocabEntry where
  word2id : List (String × Nat)
  unk_id : Nat
  id2word : List (Nat × String)
deriving DecidableEq, Repr

/-- The dict comprehension `{v: k for k, v in word2id.items()}` of
vocab.py line 48, with Python's last-occurrence-wins semantics. -/
def invertDict (d : List (String × Nat)) : List (Nat × String) :=
  d.foldl (fun acc p => dictInsert acc p.2 p.1) []

/-- `VocabEntry.__init__` (vocab.py lines 35-48).  A falsy argument (`None` or
the empty dict) is replaced by the default dict; `none` as a result models the
`KeyError` raised by `word2id['<unk>']` when that key is absent. -/
def VocabEntry.init (w : Option (List (String × Nat))) : Option VocabEntry :=
  let d := match w with
    | some l => if l.isEmpty then defaultWord2Id else l
    | none => defaultWord2Id
  match dictGet? d "<unk>" with
  | some u => some { word2id := d, unk_id := u, id2word := invertDict d }
  | none => none

/-- `VocabEntry.__getitem__` (vocab.py lines 50-56):
`self.word2id.get(word, self.unk_id)`. -/
def VocabEntry.getItem (e : VocabEntry) (w : String) : Nat :=
  (dictGet? e.word2id w).getD e.unk_id

/-- `VocabEntry.__contains__` (vocab.py lines 58-63). -/
def VocabEntry.containsWord (e : VocabEntry) (w : String) : Bool :=
  (e.word2id.map Prod.fst).contains w

/-- `VocabEntry.__len__` (vocab.py lines 70-74). -/
def VocabEntry.size (e : VocabEntry) : Nat :=
  e.word2id.length

/-- `VocabEntry.add` (vocab.py lines 89-99), returning the assigned index
together with the updated entry. -/
def VocabEntry.add (e : VocabEntry) (w : String) : Nat × VocabEntry :=
  if e.containsWord w then
    (e.getItem w, e)
  else
    let wid := e.size
    (wid, { e with word2id := dictInsert e.word2id w wid,
                   id2word := dictInsert e.id2word wid w })

/-- `VocabEntry.from_subword_list` (vocab.py lines 157-165). -/
def VocabEntry.fromSubwordList (l : List String) : Option VocabEntry :=
  (VocabEntry.init none).map (fun e0 => l.foldl (fun e w => (e.add w).2) e0)

/-- `Vocab` (vocab.py lines 168-177): a source and a target `VocabEntry`. -/
structure Vocab where
  src : VocabEntry
  tgt : VocabEntry
deriving DecidableEq, Repr

/-- `Vocab.build` (vocab.py lines 179-195). -/
def Vocab.build (srcSents tgtSents : List String) : Option Vocab :=
  match VocabEntry.fromSubwordList srcSents, VocabEntry.fromSubwordList tgtSents with
  | some s, some t => some { src := s, tgt := t }
  | _, _ => none

/-- JSON values, as far as the vocab file format needs them. -/
inductive JVal : Type where
  | jint : Int → JVal
  | jstr : String → JVal
  | jobj : List (String × JVal) → JVal

/-- A `word2id` dict as the JSON object `json.dump` writes for it. -/
def word2IdToJson (d : List (String × Nat)) : JVal :=
  .jobj (d.map (fun p => (p.1, .jint (Int.ofNat p.2))))

/-- `Vocab.save` (vocab.py lines 197-203): the JSON value written to the
vocab file, `dict(src_word2id=..., tgt_word2id=...)`. -/
def Vocab.save (v : Vocab) : JVal :=
  .jobj [("src_word2id", word2IdToJson v.src.word2id),
         ("tgt_word2id", word2IdToJson v.tgt.word2id)]

/-- Read one field of a JSON word2id object back as a dict entry; `json.load`
produces string-to-int dicts, so anything else fails. -/
def parseWord2IdEntry : String × JVal → Option (String × Nat)
  | (k, .jint (Int.ofNat n)) => some (k, n)
  | _ => none

/-- Read a JSON object back as a word2id dict. -/
def parseWord2Id : JVal → Option (List (String × Nat))
  | .jobj fs => fs.mapM parseWord2IdEntry
  | _ => none

/-- `Vocab.load` (vocab.py lines 205-217): read the two dicts out of the JSON
value and rebuild the `Vocab` through `VocabEntry.__init__`; `none` models the
`KeyError` on a missing field and malformed JSON. -/
def Vocab.load (j : JVal) : Option Vocab :=
  match j with
  | .jobj entry => do
      let sj ← dictGet? entry "src_word2id"
      let tj ← dictGet? entry "tgt_word2id"
      let sd ← parseWord2Id sj
      let td ← parseWord2Id tj
      let se ← VocabEntry.init (some sd)
      let te ← VocabEntry.init (some td)
      return { src := se, tgt := te }
  | _ => none

/-- The invariant of a well-formed `VocabEntry`: the dict keys are distinct,
the values are exactly `0, 1, ..., len-1` in insertion order, and `id2word`
is the exact inverse pairing of `word2id`. -/
def VocabEntry.wf (e : VocabEntry) : Prop :=
  (e.word2id.map Prod.fst).Nodup ∧
  e.word2id.map Prod.snd = List.range e.word2id.length ∧
  e.id2word = e.word2id.map (fun p => (p.2, p.1))

/-! ## run.py -/

/-- A sentence: a list of subword tokens. -/
abbrev Sent := List String

/-- The model state visible to the driver code: the `training` flag toggled by
`model.train()` / `model.eval()`. -/
structure MState where
  training : Bool
deriving DecidableEq, Repr

/-- One iteration of the `evaluate_ppl` loop body (run.py lines 77-82):
`cum_loss += (-model(src, tgt).sum()).item()` and
`cum_tgt_words += sum(len(s[1:]) for s in tgt_sents)`.  The scoring call
`model(src_sents, tgt_sents)` is abstracted as `score`, a function of whether
gradients are enabled and of the batch, returning per-example scores. -/
def pplStep (score : Bool → List (Sent × Sent) → List Rat)
    (acc : Rat × Rat) (batch : List (Sent × Sent)) : Rat × Rat :=
  (acc.1 + (-(score false batch).sum),
   acc.2 + (batch.map (fun p => (((p.2.drop 1).length : Int) : Rat))).sum)

/-- `evaluate_ppl` (run.py lines 62-89).  The float it returns is
`exp(cum_loss / cum_tgt_words)`; `exp` being a fixed map of the quotient, the
embedding returns the quotient (the argument of `numpy.exp`) together with the
final model state.  The loop body runs inside `torch.no_grad()`, hence the
`false` gradient flag in `pplStep`. -/
def evaluatePpl (score : Bool → List (Sent × Sent) → List Rat)
    (m : MState) (batches : List (List (Sent × Sent))) : Rat × MState :=
  let wasTraining := m.training
  let m1 : MState := { m with training := false }
  let acc := batches.foldl (pplStep score) (0, 0)
  let ppl := acc.1 / acc.2
  let m2 := if wasTraining then { m1 with training := true } else m1
  (ppl, m2)

/-- `Hypothesis` (the named tuple of nmt_model.py used by run.py): a token
sequence and its score. -/
structure Hypothesis where
  value : List String
  score : Rat
deriving DecidableEq, Repr

/-- The driver `beam_search` (run.py lines 331-355): record the training flag,
switch the model to eval mode, decode the source sentences in order inside
`torch.no_grad()` (hence the `false` gradient flag), appending each sentence's
hypothesis list, and restore the training flag.  `decodeOne` abstracts
`model.beam_search` as a function of the gradient flag and the sentence. -/
def beamSearchDriver (decodeOne : Bool → Sent → List Hypothesis)
    (m : MState) (testDataSrc : List Sent) : List (List Hypothesis) × MState :=
  let wasTraining := m.training
  let m1 : MState := { m with training := false }
  let hypotheses := testDataSrc.foldl (fun acc s => acc ++ [decodeOne false s]) []
  let m2 := if wasTraining then { m1 with training := wasTraining } else m1
  (hypotheses, m2)

/-- A partial beam-search hypothesis: target-side tokens and cumulative score. -/
structure Beam where
  toks : List String
  score : Rat
deriving DecidableEq, Repr

/-- Length-normalized score of a partial hypothesis. -/
def Beam.normScore (b : Beam) : Rat :=
  b.score / (b.toks.length : Rat)

/-- Descending order on the length-normalized score. -/
def beamGE (a b : Beam) : Prop :=
  b.normScore ≤ a.normScore

instance : DecidableRel beamGE :=
  fun a b => inferInstanceAs (Decidable (b.normScore ≤ a.normScore))

instance : IsTotal Beam beamGE :=
  ⟨fun a b => le_total b.normScore a.normScore⟩

instance : IsTrans Beam beamGE :=
  ⟨fun _ _ _ h1 h2 => le_trans h2 h1⟩

/-- Keep the `k` best candidates under the length-normalized score. -/
def topK (k : Nat) (cands : List Beam) : List Beam :=
  (List.insertionSort beamGE cands).take k

/-- Modelled from the spec: the candidate expansion of `NMT.beam_search`
(nmt_model.py, not part of the source excerpt).  Per the spec the decoder is
"standard length-normalized beam search over the target-vocabulary
distribution": a completed hypothesis (one that has produced the end token)
is kept as is, an open one is extended by every target-vocabulary token,
adding that token's log-probability `stepScore` under the model distribution
to its cumulative score. -/
def expandBeam (stepScore : List String → String → Rat) (vocab : List String)
    (eos : String) (b : Beam) : List Beam :=
  if b.toks.getLast? = some eos then [b]
  else vocab.map (fun tok =>
    { toks := b.toks ++ [tok], score := b.score + stepScore b.toks tok })

/-- Modelled from the spec: one decoding step of `NMT.beam_search` retains the
top `beamSize` candidate hypotheses under the length-normalized score. -/
def beamStep (stepScore : List String → String → Rat) (vocab : List String)
    (eos : String) (beamSize : Nat) (beams : List Beam) : List Beam :=
  topK beamSize (beams.flatMap (expandBeam stepScore vocab eos))

/-- Modelled from the spec: iterate the decoding step. -/
def beamIter (stepScore : List String → String → Rat) (vocab : List String)
    (eos : String) (beamSize : Nat) : Nat → List Beam → List Beam
  | 0, beams => beams
  | n + 1, beams => beamIter stepScore vocab eos beamSize n
      (beamStep stepScore vocab eos beamSize beams)

/-- Modelled from the spec: `NMT.beam_search` runs at most
`--max-decoding-time-step` decoding steps from the single empty hypothesis
and reports the retained hypotheses with their length-normalized scores. -/
def nmtBeamSearch (stepScore : List String → String → Rat) (vocab : List String)
    (eos : String) (beamSize maxDecodingTimeStep : Nat) : List Hypothesis :=
  (beamIter stepScore vocab eos beamSize maxDecodingTimeStep [{ toks := [], score := 0 }]).map
    (fun b => { value := b.toks, score := b.normScore })

/-- A torch device. -/
inductive Device : Type where
  | cpu : Device
  | cuda : Nat → Device
deriving DecidableEq, Repr

/-- Device selection in `train` (run.py lines 158-163): under `--cuda` the
assertion `torch.cuda.is_available()` runs first (`.error ()` is the
AssertionError), otherwise the device is `'cpu'` and the assertion is never
evaluated. -/
def trainSelectDevice (cudaFlag cudaAvailable : Bool) (currentDevice : Nat) :
    Except Unit Device :=
  if cudaFlag then
    if cudaAvailable then .ok (.cuda currentDevice) else .error ()
  else .ok .cpu

/-- Device selection in `decode` (run.py lines 307-312), textually the same
code as in `train`. -/
def decodeSelectDevice (cudaFlag cudaAvailable : Bool) (currentDevice : Nat) :
    Except Unit Device :=
  if cudaFlag then
    if cudaAvailable then .ok (.cuda currentDevice) else .error ()
  else .ok .cpu

/-- The hyperparameter flags of `run.py train` that reach the `NMT`
constructor site (run.py lines 137-143). -/
structure RunTrainFlags where
  embedSize : Nat
  hiddenSize : Nat
  dropout : Rat
deriving DecidableEq, Repr

/-- The constructor arguments of `NMT` as `train` supplies them. -/
structure NMTCfg where
  embedSize : Nat
  hiddenSize : Nat
  dropoutRate : Rat
deriving DecidableEq, Repr

/-- run.py line 143: `NMT(embed_size=1024, hidden_size=768,
dropout_rate=float(args['--dropout']), vocab=vocab)`.  The flag-driven call on
lines 138-141 is commented out in the source. -/
def buildNMT (a : RunTrainFlags) : NMTCfg :=
  { embedSize := 1024, hiddenSize := 768, dropoutRate := a.dropout }

/-- The flags of the vocab-building CLI (vocab.py docstring lines 12-21). -/
structure VocabCLIFlags where
  trainSrc : String
  trainTgt : String
  size : Nat
  freqCutoff : Nat
deriving DecidableEq, Repr

/-- vocab.py `main` (lines 244-269): `get_vocab_list` (the external
SentencePiece call) is abstracted as a function `sp` of the corpus file and
the requested vocabulary size.  The sizes are hardcoded to 21000/8000 and the
`--size`/`--freq-cutoff` path (lines 262-266) is commented out in the source. -/
def vocabMain (sp : String → Nat → List String) (a : VocabCLIFlags) : Option Vocab :=
  Vocab.build (sp a.trainSrc 21000) (sp a.trainTgt 8000)

/-- The train-subcommand flags that drive the early-stopping /
learning-rate-decay loop of `train` (run.py lines 170-283). -/
structure TrainArgs where
  validNiter : Nat
  patience : Nat
  maxNumTrial : Nat
  maxEpoch : Nat
  lrDecay : Rat
  lr0 : Rat

/-- The training-loop state the claims are about.  `model` and `optim`
abstract the network parameters and the non-lr part of the optimizer state;
`checkpoint` is the content of the best-model file pair written by
`model.save(model_save_path)` and `torch.save(optimizer.state_dict(), ...)`:
parameters, optimizer state, and the learning rate at save time. -/
structure TrainState (μ ω : Type) where
  epoch : Nat
  trainIter : Nat
  patience : Nat
  numTrial : Nat
  histValidScores : List Int
  lr : Rat
  model : μ
  optim : ω
  checkpoint : Option (μ × ω × Rat)

/-- What one batch iteration contributes from outside the loop logic: the
parameters and optimizer state after the gradient step, and the validation
metric `valid_metric = -dev_ppl` that is measured if validation runs at this
iteration.  The metric only feeds the comparison with the best historic
score, so the float is modelled as an `Int`. -/
structure BatchIn (μ ω : Type) where
  newModel : μ
  newOptim : ω
  metric : Int

/-- Result of a piece of the training loop: fall through, `exit(0)`, or an
uncaught exception (`torch.load` on a checkpoint file that was never
written). -/
inductive StepRes (μ ω : Type) : Type where
  | next : TrainState μ ω → StepRes μ ω
  | exited : TrainState μ ω → StepRes μ ω
  | crashed : StepRes μ ω

/-- Python `max` of a nonempty list (run.py line 239). -/
def listMax (h : Int) (t : List Int) : Int :=
  t.foldl max h

/-- The validation block of `train` (run.py lines 221-277), entered when
`train_iter % valid_niter == 0`, given the measured `valid_metric`.  On a
trial that does not hit `--max-num-trial`, the checkpointed learning rate is
restored by `optimizer.load_state_dict` and immediately overwritten with the
decayed current rate (run.py lines 261-274), so only the latter survives. -/
def validate {μ ω : Type} (a : TrainArgs) (s : TrainState μ ω) (metric : Int) :
    StepRes μ ω :=
  let isBetter := match s.histValidScores with
    | [] => true
    | h :: t => decide (listMax h t < metric)
  let hist2 := s.histValidScores ++ [metric]
  if isBetter then
    .next { s with histValidScores := hist2, patience := 0,
                   checkpoint := some (s.model, s.optim, s.lr) }
  else if s.patience < a.patience then
    let p := s.patience + 1
    if p = a.patience then
      let t := s.numTrial + 1
      if t = a.maxNumTrial then
        .exited { s with histValidScores := hist2, patience := p, numTrial := t }
      else
        match s.checkpoint with
        | none => .crashed
        | some (cm, co, _) =>
          .next { s with histValidScores := hist2, numTrial := t,
                         model := cm, optim := co,
                         lr := s.lr * a.lrDecay, patience := 0 }
    else .next { s with histValidScores := hist2, patience := p }
  else .next { s with histValidScores := hist2 }

/-- One iteration of the inner batch loop of `train` (run.py lines 180-283):
the gradient step (abstracted into `b`), the optional validation, and the
`epoch == --max-epoch` hard stop checked at the end of every iteration.
`train_iter % valid_niter` on run.py line 221 raises `ZeroDivisionError` when
`--valid-niter` is 0, so that flag value crashes the iteration before the
validation test and before the hard stop can run. -/
def trainBatch {μ ω : Type} (a : TrainArgs) (s : TrainState μ ω) (b : BatchIn μ ω) :
    StepRes μ ω :=
  let s1 := { s with trainIter := s.trainIter + 1,
                     model := b.newModel, optim := b.newOptim }
  if a.validNiter = 0 then .crashed
  else
    let r := if s1.trainIter % a.validNiter = 0 then validate a s1 b.metric else .next s1
    match r with
    | .next s2 => if s2.epoch = a.maxEpoch then .exited s2 else .next s2
    | r2 => r2

/-- The inner `for` loop of `train` over one epoch's batches. -/
def runBatches {μ ω : Type} (a : TrainArgs) (s : TrainState μ ω) :
    List (BatchIn μ ω) → StepRes μ ω
  | [] => .next s
  | b :: rest =>
    match trainBatch a s b with
    | .next s2 => runBatches a s2 rest
    | r => r

/-- One `while True` iteration (run.py lines 177-283): `epoch += 1`, then the
inner loop over the epoch's batches. -/
def runEpoch {μ ω : Type} (a : TrainArgs) (s : TrainState μ ω)
    (bs : List (BatchIn μ ω)) : StepRes μ ω :=
  runBatches a { s with epoch := s.epoch + 1 } bs

/-- The training loop run on finitely many epochs of batch inputs (`.next`
means the modelled input was exhausted with training still running). -/
def runTraining {μ ω : Type} (a : TrainArgs) (s : TrainState μ ω) :
    List (List (BatchIn μ ω)) → StepRes μ ω
  | [] => .next s
  | e :: rest =>
    match runEpoch a s e with
    | .next s2 => runTraining a s2 rest
    | r => r

/-- The loop-state initialisation of `train` (run.py lines 167-174). -/
def initState {μ ω : Type} (a : TrainArgs) (m0 : μ) (o0 : ω) : TrainState μ ω :=
  { epoch := 0, trainIter := 0, patience := 0, numTrial := 0,
    histValidScores := [], lr := a.lr0, model := m0, optim := o0,
    checkpoint := none }

/-! ## Association-list dictionary lemmas -/

theorem dictGet?_cons {α β : Type} [DecidableEq α] (p : α × β) (d : List (α × β))
    (k : α) : dictGet? (p :: d) k = if p.1 = k then some p.2 else dictGet? d k := by
  by_cases h : p.1 = k <;> simp [dictGet?, List.find?_cons, h]

theorem dictGet?_eq_some_iff_mem {α β : Type} [DecidableEq α] {d : List (α × β)}
    (hk : (d.map Prod.fst).Nodup) {k : α} {v : β} :
    dictGet? d k = some v ↔ (k, v) ∈ d := by
  induction d with
  | nil => simp [dictGet?]
  | cons p t ih =>
    rw [List.map_cons, List.nodup_cons] at hk
    obtain ⟨hp, ht⟩ := hk
    rw [dictGet?_cons, List.mem_cons]
    by_cases h : p.1 = k
    · rw [if_pos h]
      constructor
      · intro hs
        have hv : p.2 = v := Option.some_inj.mp hs
        exact Or.inl (Prod.ext_iff.mpr ⟨h.symm, hv.symm⟩)
      · rintro (h2 | h2)
        · exact congrArg (fun p => some p.2) h2.symm
        · exact absurd (List.mem_map_of_mem Prod.fst h2) (h ▸ hp)
    · rw [if_neg h, ih ht]
      constructor
      · exact Or.inr
      · rintro (h2 | h2)
        · exact absurd (congrArg Prod.fst h2.symm) h
        · exact h2

theorem dictGet?_eq_none_iff {α β : Type} [DecidableEq α] {d : List (α × β)}
    {k : α} : dictGet? d k = none ↔ k ∉ d.map Prod.fst := by
  induction d with
  | nil => simp [dictGet?]
  | cons p t ih =>
    rw [dictGet?_cons, List.map_cons, List.mem_cons]
    by_cases h : p.1 = k
    · simp [h]
    · rw [if_neg h, ih]
      constructor
      · intro hn
        rintro (he | he)
        · exact h he.symm
        · exact hn he
      · intro hn he
        exact hn (Or.inr he)

theorem mem_keys_iff_contains {α : Type} [DecidableEq α] (l : List α) (a : α) :
    l.contains a = true ↔ a ∈ l := by
  induction l with
  | nil => simp
  | cons b t ih =>
    rw [List.contains_cons, List.mem_cons, Bool.or_eq_true, beq_iff_eq, ih]

theorem dictInsert_of_not_mem {α β : Type} [DecidableEq α] {d : List (α × β)}
    {k : α} (h : k ∉ d.map Prod.fst) (v : β) :
    dictInsert d k v = d ++ [(k, v)] := by
  rw [dictInsert, if_neg]
  intro hc
  exact h ((mem_keys_iff_contains _ k).mp hc)

/-! ## C8: the VocabEntry invariant -/

theorem map_fst_swap {α β : Type} (l : List (α × β)) :
    (l.map (fun p => (p.2, p.1))).map Prod.fst = l.map Prod.snd := by
  rw [List.map_map]
  rfl

theorem containsWord_iff {e : VocabEntry} {w : String} :
    e.containsWord w = true ↔ w ∈ e.word2id.map Prod.fst :=
  mem_keys_iff_contains _ w

theorem add_of_not_mem {e : VocabEntry} {w : String}
    (hw : w ∉ e.word2id.map Prod.fst) :
    e.add w = (e.word2id.length,
      { e with word2id := e.word2id ++ [(w, e.word2id.length)],
               id2word := dictInsert e.id2word e.word2id.length w }) := by
  have hc : ¬ (e.containsWord w = true) := fun h => hw (containsWord_iff.mp h)
  simp only [VocabEntry.add, if_neg hc, VocabEntry.size, dictInsert_of_not_mem hw]

theorem add_of_mem {e : VocabEntry} {w : String}
    (hw : w ∈ e.word2id.map Prod.fst) :
    e.add w = (e.getItem w, e) := by
  rw [VocabEntry.add, if_pos (containsWord_iff.mpr hw)]

theorem add_wf {e : VocabEntry} (he : e.wf) (w : String) :
    ((e.add w).2).wf := by
  obtain ⟨hk, hv, hi⟩ := he
  by_cases hw : w ∈ e.word2id.map Prod.fst
  · rw [add_of_mem hw]
    exact ⟨hk, hv, hi⟩
  · rw [add_of_not_mem hw]
    have hlen : e.word2id.length ∉ e.id2word.map Prod.fst := by
      rw [hi, map_fst_swap, hv]
      simp
    refine ⟨?_, ?_, ?_⟩
    · simp [List.nodup_append, hk, hw]
    · simp only [List.map_append, hv, List.map_cons, List.map_nil,
        List.length_append, List.length_cons, List.length_nil, Nat.zero_add]
      rw [← List.range_succ]
    · rw [dictInsert_of_not_mem hlen]
      simp [hi]

theorem foldl_add_wf (l : List String) {e : VocabEntry} (he : e.wf) :
    (l.foldl (fun e w => (e.add w).2) e).wf := by
  induction l generalizing e with
  | nil => exact he
  | cons w t ih => exact ih (add_wf he w)

theorem init_none_eq :
    VocabEntry.init none =
      some { word2id := defaultWord2Id, unk_id := 3,
             id2word := invertDict defaultWord2Id } := by
  rfl

theorem default_entry_wf : ∀ e, VocabEntry.init none = some e → e.wf := by
  intro e he
  rw [init_none_eq, Option.some_inj] at he
  subst he
  refine ⟨by decide, by decide, by decide⟩

/-- C8: every `VocabEntry` built fresh or through `from_subword_list`
satisfies the invariant `wf` (distinct words, ids exactly `0..len-1`,
`id2word` the exact inverse of `word2id`); `add` preserves `wf`, returns the
existing index of a present word and assigns the fresh index `len(self)` to an
unseen word; and under `wf` the `word2id` and `id2word` lookups are mutually
inverse. -/
theorem vocab_entry_invariant :
    (∀ e, VocabEntry.init none = some e → e.wf) ∧
    (∀ l e, VocabEntry.fromSubwordList l = some e → e.wf) ∧
    (∀ (e : VocabEntry) (w : String), e.wf →
      ((e.add w).2).wf ∧
      (∀ i, dictGet? e.word2id w = some i → (e.add w).1 = i) ∧
      (dictGet? e.word2id w = none →
        (e.add w).1 = e.word2id.length ∧
        dictGet? ((e.add w).2).word2id w = some e.word2id.length)) ∧
    (∀ e : VocabEntry, e.wf → ∀ w i,
      dictGet? e.word2id w = some i ↔ dictGet? e.id2word i = some w) := by
  refine ⟨default_entry_wf, ?_, ?_, ?_⟩
  · intro l e he
    rw [VocabEntry.fromSubwordList, init_none_eq, Option.map_some',
      Option.some_inj] at he
    subst he
    exact foldl_add_wf l (default_entry_wf _ init_none_eq)
  · intro e w he
    refine ⟨add_wf he w, ?_, ?_⟩
    · intro i hi
      have hmem : w ∈ e.word2id.map Prod.fst := by
        by_contra hmem
        rw [dictGet?_eq_none_iff.mpr hmem] at hi
        exact Option.noConfusion hi
      rw [add_of_mem hmem]
      rw [VocabEntry.getItem, hi, Option.getD_some]
    · intro hnone
      have hw : w ∉ e.word2id.map Prod.fst := dictGet?_eq_none_iff.mp hnone
      rw [add_of_not_mem hw]
      refine ⟨rfl, ?_⟩
      have hk2 : ((e.word2id ++ [(w, e.word2id.length)]).map Prod.fst).Nodup := by
        obtain ⟨hk, _, _⟩ := he
        simp [List.nodup_append, hk, hw]
      rw [dictGet?_eq_some_iff_mem hk2]
      simp
  · intro e he w i
    obtain ⟨hk, hv, hi⟩ := he
    have hik : (e.id2word.map Prod.fst).Nodup := by
      rw [hi, map_fst_swap, hv]
      exact List.nodup_range _
    rw [dictGet?_eq_some_iff_mem hk, dictGet?_eq_some_iff_mem hik, hi]
    constructor
    · intro hm
      exact List.mem_map_of_mem (fun p => (p.2, p.1)) hm
    · intro hm
      obtain ⟨p, hp, hpe⟩ := List.mem_map.mp hm
      have h1 : p.2 = i := congrArg Prod.fst hpe
      have h2 : p.1 = w := congrArg Prod.snd hpe
      have hpw : p = (w, i) := Prod.ext_iff.mpr ⟨h2, h1⟩
      rwa [hpw] at hp

/-- Witness for C8: the fresh entry is well-formed, `add` of an unseen word
keeps it well-formed and assigns index 4, and the inverse-lookup law holds on
it. -/
theorem vocab_entry_invariant_witness :
    ({ word2id := defaultWord2Id, unk_id := 3,
       id2word := invertDict defaultWord2Id } : VocabEntry).wf ∧
    (({ word2id := defaultWord2Id, unk_id := 3,
        id2word := invertDict defaultWord2Id } : VocabEntry).add "low").1 = 4 ∧
    (({ word2id := defaultWord2Id, unk_id := 3,
        id2word := invertDict defaultWord2Id } : VocabEntry).add "low").2.wf := by
  have h0 := vocab_entry_invariant.1 _ init_none_eq
  refine ⟨h0, ?_, (vocab_entry_invariant.2.2.1 _ "low" h0).1⟩
  exact (vocab_entry_invariant.2.2.1 _ "low" h0).2.2 (by decide) |>.1

/-! ## C9: total lookup through getItem -/

/-- C9: on every entry that `__init__` accepts (its dict holds `'<unk>'`),
`__getitem__` is total: a present word maps to its id, an absent word to
`unk_id`, and `unk_id` is the id recorded for `'<unk>'`. -/
theorem getitem_total :
    ∀ d e, VocabEntry.init (some d) = some e →
      dictGet? e.word2id "<unk>" = some e.unk_id ∧
      (∀ w i, dictGet? e.word2id w = some i → e.getItem w = i) ∧
      (∀ w, dictGet? e.word2id w = none → e.getItem w = e.unk_id) := by
  intro d e he
  simp only [VocabEntry.init] at he
  rcases hu : dictGet? (if d.isEmpty then defaultWord2Id else d) "<unk>" with _ | u
  · rw [hu] at he
    exact absurd he (by simp)
  · rw [hu] at he
    simp only [Option.some_inj] at he
    subst he
    refine ⟨hu, ?_, ?_⟩
    · intro w i hw
      rw [VocabEntry.getItem]
      simp only [hw, Option.getD_some]
    · intro w hw
      rw [VocabEntry.getItem]
      simp only [hw, Option.getD_none]

/-- Witness for C9 on a concrete two-word dictionary. -/
theorem getitem_total_witness :
    ∃ e, VocabEntry.init (some [("<unk>", 0), ("hi", 1)]) = some e ∧
      e.getItem "hi" = 1 ∧ e.getItem "absent" = e.unk_id := by
  refine ⟨{ word2id := [("<unk>", 0), ("hi", 1)], unk_id := 0,
            id2word := invertDict [("<unk>", 0), ("hi", 1)] }, by decide, ?_, ?_⟩
  · exact (getitem_total [("<unk>", 0), ("hi", 1)]
      { word2id := [("<unk>", 0), ("hi", 1)], unk_id := 0,
        id2word := invertDict [("<unk>", 0), ("hi", 1)] } (by decide)).2.1 "hi" 1
      (by decide)
  · exact (getitem_total [("<unk>", 0), ("hi", 1)]
      { word2id := [("<unk>", 0), ("hi", 1)], unk_id := 0,
        id2word := invertDict [("<unk>", 0), ("hi", 1)] } (by decide)).2.2 "absent"
      (by decide)

/-! ## C1: JSON persistence round-trips the two dictionaries -/

theorem parseWord2Id_toJson (d : List (String × Nat)) :
    parseWord2Id (word2IdToJson d) = some d := by
  show (d.map (fun p => (p.1, JVal.jint (Int.ofNat p.2)))).mapM parseWord2IdEntry
      = some d
  induction d with
  | nil => rfl
  | cons p t ih =>
    rw [List.map_cons, List.mapM_cons, ih]
    simp [parseWord2IdEntry]

/-- C1: for every `Vocab` whose source and target dictionaries are non-empty
and hold `'<unk>'`, `Vocab.load` of the JSON value written by `Vocab.save`
succeeds and reproduces exactly the two subword-to-id dictionaries. -/
theorem vocab_save_load_roundtrip :
    ∀ v : Vocab,
      v.src.word2id ≠ [] → (dictGet? v.src.word2id "<unk>").isSome →
      v.tgt.word2id ≠ [] → (dictGet? v.tgt.word2id "<unk>").isSome →
      ∃ v2, Vocab.load (Vocab.save v) = some v2 ∧
        v2.src.word2id = v.src.word2id ∧ v2.tgt.word2id = v.tgt.word2id := by
  intro v hs hsu ht htu
  obtain ⟨us, hus⟩ := Option.isSome_iff_exists.mp hsu
  obtain ⟨ut, hut⟩ := Option.isSome_iff_exists.mp htu
  have hse : v.src.word2id.isEmpty = false := by
    cases hw : v.src.word2id with
    | nil => exact absurd hw hs
    | cons a l => rfl
  have hte : v.tgt.word2id.isEmpty = false := by
    cases hw : v.tgt.word2id with
    | nil => exact absurd hw ht
    | cons a l => rfl
  have h1 : dictGet? [("src_word2id", word2IdToJson v.src.word2id),
      ("tgt_word2id", word2IdToJson v.tgt.word2id)] "src_word2id"
      = some (word2IdToJson v.src.word2id) := by
    rw [dictGet?_cons, if_pos rfl]
  have h2 : dictGet? [("src_word2id", word2IdToJson v.src.word2id),
      ("tgt_word2id", word2IdToJson v.tgt.word2id)] "tgt_word2id"
      = some (word2IdToJson v.tgt.word2id) := by
    rw [dictGet?_cons, if_neg (by simp), dictGet?_cons, if_pos rfl]
  refine ⟨{ src := { word2id := v.src.word2id, unk_id := us,
                     id2word := invertDict v.src.word2id },
            tgt := { word2id := v.tgt.word2id, unk_id := ut,
                     id2word := invertDict v.tgt.word2id } }, ?_, rfl, rfl⟩
  simp [Vocab.save, Vocab.load, h1, h2, Option.some_bind, parseWord2Id_toJson,
    VocabEntry.init, hse, hte, hus, hut, hs, ht]

/-- Witness for C1 on a concrete vocabulary. -/
theorem vocab_save_load_roundtrip_witness :
    ∃ v2, Vocab.load (Vocab.save
        { src := { word2id := [("<unk>", 0), ("den", 1)], unk_id := 0,
                   id2word := [(0, "<unk>"), (1, "den")] },
          tgt := { word2id := [("<unk>", 0)], unk_id := 0,
                   id2word := [(0, "<unk>")] } }) = some v2 ∧
      v2.src.word2id = [("<unk>", 0), ("den", 1)] ∧
      v2.tgt.word2id = [("<unk>", 0)] := by
  exact vocab_save_load_roundtrip _ (by decide) (by decide) (by decide) (by decide)

/-! ## C5: the CUDA-availability assertion -/

/-- C5: for both `train` and `decode`, with `--cuda` set the
CUDA-availability assertion is checked before any device is selected (so the
run fails there when no GPU is available), and without `--cuda` the device is
`'cpu'` for every availability value, i.e. the assertion is never
consulted. -/
theorem cuda_assertion_device :
    (∀ cur, trainSelectDevice true false cur = .error () ∧
            decodeSelectDevice true false cur = .error ()) ∧
    (∀ cur, trainSelectDevice true true cur = .ok (.cuda cur) ∧
            decodeSelectDevice true true cur = .ok (.cuda cur)) ∧
    (∀ avail cur, trainSelectDevice false avail cur = .ok .cpu ∧
                  decodeSelectDevice false avail cur = .ok .cpu) :=
  ⟨fun _ => ⟨rfl, rfl⟩, fun _ => ⟨rfl, rfl⟩, fun _ _ => ⟨rfl, rfl⟩⟩

/-! ## C3: which hyperparameter flags actually configure the run -/

/-- Counterexample to C3 as stated: two vocab-CLI invocations on the same
input files that differ only in `--size` and `--freq-cutoff` build the same
vocabulary (the SentencePiece sizes are hardcoded to 21000/8000, and here the
subword lists genuinely depend on the requested size), and two train
invocations that differ only in `--embed-size` and `--hidden-size` construct
models with the same embedding size 1024 and hidden size 768: those four
flags are parsed but never used. -/
theorem hyperparameter_flags_counterexample :
    (vocabMain (fun _ n => [toString n])
       { trainSrc := "t.src", trainTgt := "t.tgt", size := 100, freqCutoff := 1 } =
     vocabMain (fun _ n => [toString n])
       { trainSrc := "t.src", trainTgt := "t.tgt", size := 200, freqCutoff := 9 }) ∧
    ((buildNMT { embedSize := 256, hiddenSize := 256, dropout := 3/10 }).embedSize =
       (buildNMT { embedSize := 512, hiddenSize := 1024, dropout := 3/10 }).embedSize ∧
     (buildNMT { embedSize := 256, hiddenSize := 256, dropout := 3/10 }).hiddenSize =
       (buildNMT { embedSize := 512, hiddenSize := 1024, dropout := 3/10 }).hiddenSize) :=
  ⟨rfl, rfl, rfl⟩

/-- C3 amended: the vocabulary built by the vocab CLI depends only on the
input files (never on `--size`/`--freq-cutoff`, since SentencePiece is called
with the hardcoded sizes 21000/8000); the constructed model's embedding and
hidden sizes are the constants 1024 and 768 regardless of
`--embed-size`/`--hidden-size`; a flag that is wired through, such as
`--dropout`, does configure the constructed model. -/
theorem hyperparameter_flags_amended :
    (∀ (sp : String → Nat → List String) (a1 a2 : VocabCLIFlags),
      a1.trainSrc = a2.trainSrc → a1.trainTgt = a2.trainTgt →
      vocabMain sp a1 = vocabMain sp a2) ∧
    (∀ a : RunTrainFlags,
      (buildNMT a).embedSize = 1024 ∧ (buildNMT a).hiddenSize = 768) ∧
    (∀ a : RunTrainFlags, (buildNMT a).dropoutRate = a.dropout) := by
  refine ⟨?_, fun a => ⟨rfl, rfl⟩, fun a => rfl⟩
  intro sp a1 a2 h1 h2
  rw [vocabMain, vocabMain, h1, h2]

/-- Witness for the amended C3 at concrete flag values. -/
theorem hyperparameter_flags_amended_witness :
    vocabMain (fun _ n => [toString n])
      { trainSrc := "u.src", trainTgt := "u.tgt", size := 100, freqCutoff := 1 } =
    vocabMain (fun _ n => [toString n])
      { trainSrc := "u.src", trainTgt := "u.tgt", size := 50000, freqCutoff := 2 } ∧
    (buildNMT { embedSize := 320, hiddenSize := 320, dropout := 1/2 }).embedSize = 1024 :=
  ⟨hyperparameter_flags_amended.1 _ _ _ rfl rfl,
   (hyperparameter_flags_amended.2.1 _).1⟩

/-! ## C7: the perplexity computation -/

theorem pplStep_foldl (score : Bool → List (Sent × Sent) → List Rat)
    (batches : List (List (Sent × Sent))) (a b : Rat) :
    batches.foldl (pplStep score) (a, b) =
      (a + (batches.map (fun bt => -(score false bt).sum)).sum,
       b + (batches.map (fun bt =>
         (bt.map (fun p => (((p.2.drop 1).length : Int) : Rat))).sum)).sum) := by
  induction batches generalizing a b with
  | nil => simp
  | cons bt t ih =>
    rw [List.foldl_cons, pplStep, ih]
    simp [add_assoc]

/-- C7: `evaluate_ppl` returns `exp(S / W)`: the value handed to `numpy.exp`
is exactly `S / W`, where `S` sums `-model(src, tgt).sum()` over the dev
batches and `W` counts the target words with each sentence's leading `<s>`
excluded; and the whole computation runs with gradients disabled — the result
only depends on the scores produced under the disabled-gradient flag. -/
theorem evaluate_ppl_formula :
    (∀ (score : Bool → List (Sent × Sent) → List Rat) (m : MState)
       (batches : List (List (Sent × Sent))),
      (evaluatePpl score m batches).1 =
        (batches.map (fun bt => -(score false bt).sum)).sum /
          (batches.map (fun bt =>
            (bt.map (fun p => (((p.2.drop 1).length : Int) : Rat))).sum)).sum ∧
      Real.exp ((evaluatePpl score m batches).1 : ℝ) =
        Real.exp ((((batches.map (fun bt => -(score false bt).sum)).sum /
          (batches.map (fun bt =>
            (bt.map (fun p => (((p.2.drop 1).length : Int) : Rat))).sum)).sum : Rat)) : ℝ)) ∧
    (∀ (score1 score2 : Bool → List (Sent × Sent) → List Rat) (m : MState)
       (batches : List (List (Sent × Sent))),
      score1 false = score2 false →
      evaluatePpl score1 m batches = evaluatePpl score2 m batches) := by
  constructor
  · intro score m batches
    have h1 : (evaluatePpl score m batches).1 =
        (batches.map (fun bt => -(score false bt).sum)).sum /
          (batches.map (fun bt =>
            (bt.map (fun p => (((p.2.drop 1).length : Int) : Rat))).sum)).sum := by
      rw [evaluatePpl, pplStep_foldl]
      simp
    exact ⟨h1, by rw [h1]⟩
  · intro score1 score2 m batches h
    have hp : pplStep score1 = pplStep score2 := by
      funext acc bt
      rw [pplStep, pplStep, h]
    rw [evaluatePpl, evaluatePpl, hp]

/-- Witness for C7 on a one-batch, one-example input. -/
theorem evaluate_ppl_formula_witness :
    (evaluatePpl (fun _ _ => [(1 : Rat)]) { training := true }
       [[(["x"], ["<s>", "y"])]]).1 = -1 ∧
    evaluatePpl (fun _ _ => [(1 : Rat)]) { training := true } [[(["x"], ["<s>", "y"])]]
      = evaluatePpl (fun _ _ => [(1 : Rat)]) { training := true }
          [[(["x"], ["<s>", "y"])]] := by
  constructor
  · rw [(evaluate_ppl_formula.1 (fun _ _ => [(1 : Rat)]) { training := true }
      [[(["x"], ["<s>", "y"])]]).1]
    norm_num
  · exact evaluate_ppl_formula.2 _ _ _ _ rfl

/-! ## C10: the training flag is restored -/

/-- C10: `evaluate_ppl` and the driver `beam_search` leave the model's
training-mode flag unchanged: both record it, switch to eval mode for the
computation, and restore training mode on exit exactly when the model was
training on entry. -/
theorem eval_restores_training_flag :
    (∀ (score : Bool → List (Sent × Sent) → List Rat) (m : MState)
       (batches : List (List (Sent × Sent))),
      ((evaluatePpl score m batches).2).training = m.training) ∧
    (∀ (decodeOne : Bool → Sent → List Hypothesis) (m : MState)
       (srcs : List Sent),
      ((beamSearchDriver decodeOne m srcs).2).training = m.training) := by
  constructor
  · intro score m batches
    by_cases hm : m.training <;> simp [evaluatePpl, hm]
  · intro decodeOne m srcs
    by_cases hm : m.training <;> simp [beamSearchDriver, hm]

/-! ## C6: length-normalized beam search -/

theorem topK_length_le (k : Nat) (cands : List Beam) :
    (topK k cands).length ≤ k := by
  rw [topK, List.length_take]
  exact min_le_left _ _

theorem topK_subset (k : Nat) (cands : List Beam) :
    ∀ b ∈ topK k cands, b ∈ cands := by
  intro b hb
  exact (List.perm_insertionSort beamGE cands).mem_iff.mp (List.mem_of_mem_take hb)

theorem topK_dominates (k : Nat) (cands : List Beam) :
    ∀ b ∈ topK k cands, ∀ c ∈ cands, c ∉ topK k cands →
      c.normScore ≤ b.normScore := by
  intro b hb c hc hcn
  have hs : List.Pairwise beamGE (List.insertionSort beamGE cands) :=
    List.sorted_insertionSort beamGE cands
  have hcs : c ∈ List.insertionSort beamGE cands :=
    (List.perm_insertionSort beamGE cands).mem_iff.mpr hc
  have hcd : c ∈ (List.insertionSort beamGE cands).drop k := by
    rcases (List.mem_append.mp
      (by rwa [List.take_append_drop k (List.insertionSort beamGE cands)])) with h | h
    · exact absurd h hcn
    · exact h
  have hsplit := hs
  rw [← List.take_append_drop k (List.insertionSort beamGE cands)] at hsplit
  exact (List.pairwise_append.mp hsplit).2.2 b hb c hcd

theorem expandBeam_len (stepScore : List String → String → Rat)
    (vocab : List String) (eos : String) (b : Beam) :
    ∀ b2 ∈ expandBeam stepScore vocab eos b, b2.toks.length ≤ b.toks.length + 1 := by
  intro b2 hb2
  rw [expandBeam] at hb2
  by_cases hl : b.toks.getLast? = some eos
  · rw [if_pos hl] at hb2
    rw [List.mem_singleton.mp hb2]
    exact Nat.le_succ _
  · rw [if_neg hl] at hb2
    obtain ⟨tok, _, htok⟩ := List.mem_map.mp hb2
    rw [← htok]
    simp

theorem beamStep_len (stepScore : List String → String → Rat)
    (vocab : List String) (eos : String) (k : Nat) (beams : List Beam) :
    ∀ b2 ∈ beamStep stepScore vocab eos k beams,
      ∃ b ∈ beams, b2.toks.length ≤ b.toks.length + 1 := by
  intro b2 hb2
  have hc := topK_subset k _ b2 hb2
  obtain ⟨b, hb, hbe⟩ := List.mem_flatMap.mp hc
  exact ⟨b, hb, expandBeam_len stepScore vocab eos b b2 hbe⟩

theorem beamIter_len (stepScore : List String → String → Rat)
    (vocab : List String) (eos : String) (k : Nat) :
    ∀ (n : Nat) (beams : List Beam),
      ∀ b2 ∈ beamIter stepScore vocab eos k n beams,
        ∃ b ∈ beams, b2.toks.length ≤ b.toks.length + n := by
  intro n
  induction n with
  | zero =>
    intro beams b2 hb2
    exact ⟨b2, hb2, Nat.le_refl _⟩
  | succ n ih =>
    intro beams b2 hb2
    rw [beamIter] at hb2
    obtain ⟨b3, hb3, hlen3⟩ := ih _ b2 hb2
    obtain ⟨b, hb, hlen⟩ := beamStep_len stepScore vocab eos k beams b3 hb3
    exact ⟨b, hb, by omega⟩

theorem foldl_append_eq_map {α β : Type} (f : α → β) (l : List α) (acc : List β) :
    l.foldl (fun acc s => acc ++ [f s]) acc = acc ++ l.map f := by
  induction l generalizing acc with
  | nil => simp
  | cons s t ih => simp [ih]

/-- C6: the decoder, modelled from the spec as standard length-normalized
beam search over the target-vocabulary distribution, retains at each step at
most `beam_size` hypotheses, all drawn from the single-token expansions of
the previous beam, and dropped candidates never outscore retained ones under
the length-normalized score; every produced hypothesis has at most
`--max-decoding-time-step` tokens; and the driver `beam_search` returns
exactly one hypothesis list per source sentence, in input order. -/
theorem beam_search_spec :
    (∀ (stepScore : List String → String → Rat) (vocab : List String)
       (eos : String) (k : Nat) (beams : List Beam),
      (beamStep stepScore vocab eos k beams).length ≤ k ∧
      (∀ b ∈ beamStep stepScore vocab eos k beams,
        b ∈ beams.flatMap (expandBeam stepScore vocab eos)) ∧
      (∀ b ∈ beamStep stepScore vocab eos k beams,
       ∀ c ∈ beams.flatMap (expandBeam stepScore vocab eos),
        c ∉ beamStep stepScore vocab eos k beams → c.normScore ≤ b.normScore)) ∧
    (∀ (stepScore : List String → String → Rat) (vocab : List String)
       (eos : String) (k T : Nat),
      ∀ h ∈ nmtBeamSearch stepScore vocab eos k T, h.value.length ≤ T) ∧
    (∀ (decodeOne : Bool → Sent → List Hypothesis) (m : MState)
       (srcs : List Sent),
      (beamSearchDriver decodeOne m srcs).1 = srcs.map (decodeOne false)) := by
  refine ⟨?_, ?_, ?_⟩
  · intro stepScore vocab eos k beams
    exact ⟨topK_length_le k _, topK_subset k _, topK_dominates k _⟩
  · intro stepScore vocab eos k T h hmem
    rw [nmtBeamSearch] at hmem
    obtain ⟨b, hb, hbe⟩ := List.mem_map.mp hmem
    obtain ⟨b0, hb0, hlen⟩ := beamIter_len stepScore vocab eos k T _ b hb
    rw [List.mem_singleton.mp hb0] at hlen
    rw [← hbe]
    simpa using hlen
  · intro decodeOne m srcs
    rw [beamSearchDriver]
    exact foldl_append_eq_map _ srcs []

/-- Witness for C6 at a two-token vocabulary with beam size 1 and one step. -/
theorem beam_search_spec_witness :
    (beamStep (fun _ tok => if tok = "a" then 2 else 1) ["a", "</s>"] "</s>" 1
      [{ toks := [], score := 0 }]).length ≤ 1 ∧
    ({ toks := ["</s>"], score := 1 } : Beam).normScore ≤
      ({ toks := ["a"], score := 2 } : Beam).normScore ∧
    (∀ h ∈ nmtBeamSearch (fun _ tok => if tok = "a" then 2 else 1) ["a", "</s>"]
      "</s>" 1 1, h.value.length ≤ 1) ∧
    (beamSearchDriver (fun _ _ => []) { training := false } [["x"]]).1 = [[]] := by
  have hcands : [({ toks := [], score := 0 } : Beam)].flatMap
      (expandBeam (fun _ tok => if tok = "a" then 2 else 1) ["a", "</s>"] "</s>")
      = [{ toks := ["a"], score := 2 }, { toks := ["</s>"], score := 1 }] := by
    simp [expandBeam]
  have hstep : beamStep (fun _ tok => if tok = "a" then 2 else 1) ["a", "</s>"]
      "</s>" 1 [{ toks := [], score := 0 }] = [{ toks := ["a"], score := 2 }] := by
    rw [beamStep, hcands, topK]
    norm_num [List.insertionSort, List.orderedInsert, beamGE, Beam.normScore]
  refine ⟨(beam_search_spec.1 _ _ _ _ _).1, ?_, ?_, ?_⟩
  · refine (beam_search_spec.1 (fun _ tok => if tok = "a" then 2 else 1)
      ["a", "</s>"] "</s>" 1 [{ toks := [], score := 0 }]).2.2
      { toks := ["a"], score := 2 } ?_ { toks := ["</s>"], score := 1 } ?_ ?_
    · rw [hstep]
      exact List.mem_singleton.mpr rfl
    · rw [hcands]
      simp
    · rw [hstep]
      simp
  · exact beam_search_spec.2.1 _ _ _ _ _
  · exact (beam_search_spec.2.2 (fun _ _ => []) { training := false }
      [["x"]]).trans rfl

/-! ## C2/C4: the early-stopping / learning-rate-decay loop -/

theorem validate_spec {μ ω : Type} (a : TrainArgs) (s : TrainState μ ω) (v : Int)
    (hck : s.histValidScores ≠ [] → s.checkpoint.isSome) :
    (∀ s2, validate a s v = .next s2 →
      (s2.numTrial = s.numTrial ∨
        (s2.numTrial = s.numTrial + 1 ∧ s2.numTrial ≠ a.maxNumTrial)) ∧
      s2.epoch = s.epoch ∧
      s2.checkpoint.isSome ∧ s2.histValidScores ≠ []) ∧
    (∀ s2, validate a s v = .exited s2 →
      s2.numTrial = s.numTrial + 1 ∧ s2.numTrial = a.maxNumTrial ∧
      s2.epoch = s.epoch) ∧
    validate a s v ≠ .crashed := by
  rcases hh : s.histValidScores with _ | ⟨h0, t0⟩
  · have hv : validate a s v =
        .next { s with
          histValidScores := s.histValidScores ++ [v],
          patience := 0, checkpoint := some (s.model, s.optim, s.lr) } := by
      simp [validate, hh]
    refine ⟨?_, ?_, ?_⟩
    · intro s2 h2
      rw [hv] at h2
      injection h2 with h2
      subst h2
      exact ⟨Or.inl rfl, rfl, rfl, by simp [hh]⟩
    · intro s2 h2
      rw [hv] at h2
      exact absurd h2 (by simp)
    · rw [hv]
      simp
  · have hsome : s.checkpoint.isSome := hck (by simp [hh])
    by_cases hlt : listMax h0 t0 < v
    · have hv : validate a s v =
          .next { s with
            histValidScores := s.histValidScores ++ [v],
            patience := 0, checkpoint := some (s.model, s.optim, s.lr) } := by
        simp [validate, hh, hlt]
      refine ⟨?_, ?_, ?_⟩
      · intro s2 h2
        rw [hv] at h2
        injection h2 with h2
        subst h2
        exact ⟨Or.inl rfl, rfl, rfl, by simp [hh]⟩
      · intro s2 h2
        rw [hv] at h2
        exact absurd h2 (by simp)
      · rw [hv]
        simp
    · by_cases hp : s.patience < a.patience
      · by_cases hpe : s.patience + 1 = a.patience
        · by_cases hte : s.numTrial + 1 = a.maxNumTrial
          · have hv : validate a s v =
                .exited { s with
                  histValidScores := s.histValidScores ++ [v],
                  patience := s.patience + 1,
                  numTrial := s.numTrial + 1 } := by
              simp [validate, hh, hlt, hp, hpe, hte]
            refine ⟨?_, ?_, ?_⟩
            · intro s2 h2
              rw [hv] at h2
              exact absurd h2 (by simp)
            · intro s2 h2
              rw [hv] at h2
              injection h2 with h2
              subst h2
              exact ⟨rfl, hte, rfl⟩
            · rw [hv]
              simp
          · obtain ⟨ck, hckv⟩ := Option.isSome_iff_exists.mp hsome
            obtain ⟨cm, co, clr⟩ := ck
            have hv : validate a s v =
                .next { s with
                  histValidScores := s.histValidScores ++ [v],
                  numTrial := s.numTrial + 1, model := cm, optim := co,
                  lr := s.lr * a.lrDecay, patience := 0 } := by
              simp [validate, hh, hlt, hp, hpe, hte, hckv]
            refine ⟨?_, ?_, ?_⟩
            · intro s2 h2
              rw [hv] at h2
              injection h2 with h2
              subst h2
              refine ⟨Or.inr ⟨rfl, hte⟩, rfl, ?_, by simp [hh]⟩
              simpa using hsome
            · intro s2 h2
              rw [hv] at h2
              exact absurd h2 (by simp)
            · rw [hv]
              simp
        · have hv : validate a s v =
              .next { s with
                histValidScores := s.histValidScores ++ [v],
                patience := s.patience + 1 } := by
            simp [validate, hh, hlt, hp, hpe]
          refine ⟨?_, ?_, ?_⟩
          · intro s2 h2
            rw [hv] at h2
            injection h2 with h2
            subst h2
            refine ⟨Or.inl rfl, rfl, ?_, by simp [hh]⟩
            simpa using hsome
          · intro s2 h2
            rw [hv] at h2
            exact absurd h2 (by simp)
          · rw [hv]
            simp
      · have hv : validate a s v =
            .next { s with histValidScores := s.histValidScores ++ [v] } := by
          simp [validate, hh, hlt, hp]
        refine ⟨?_, ?_, ?_⟩
        · intro s2 h2
          rw [hv] at h2
          injection h2 with h2
          subst h2
          refine ⟨Or.inl rfl, rfl, ?_, by simp [hh]⟩
          simpa using hsome
        · intro s2 h2
          rw [hv] at h2
          exact absurd h2 (by simp)
        · rw [hv]
          simp

theorem trainBatch_spec {μ ω : Type} (a : TrainArgs) (s : TrainState μ ω)
    (b : BatchIn μ ω) (hvn : a.validNiter ≠ 0)
    (hck : s.histValidScores ≠ [] → s.checkpoint.isSome)
    (htr : s.numTrial < a.maxNumTrial) :
    (∀ s2, trainBatch a s b = .next s2 →
      s2.numTrial < a.maxNumTrial ∧ s2.epoch = s.epoch ∧ s2.epoch ≠ a.maxEpoch ∧
      (s2.histValidScores ≠ [] → s2.checkpoint.isSome)) ∧
    (∀ s2, trainBatch a s b = .exited s2 →
      s2.numTrial ≤ a.maxNumTrial ∧ s2.epoch = s.epoch) ∧
    trainBatch a s b ≠ .crashed := by
  have hck1 : ({ s with trainIter := s.trainIter + 1, model := b.newModel, optim := b.newOptim } : TrainState μ ω).histValidScores ≠ [] →
      ({ s with trainIter := s.trainIter + 1, model := b.newModel, optim := b.newOptim } : TrainState μ ω).checkpoint.isSome := hck
  by_cases hdiv : (s.trainIter + 1) % a.validNiter = 0
  · have hred : trainBatch a s b =
        match validate a { s with trainIter := s.trainIter + 1, model := b.newModel, optim := b.newOptim } b.metric with
        | .next s2 => if s2.epoch = a.maxEpoch then .exited s2 else .next s2
        | r2 => r2 := by
      simp [trainBatch, hvn, hdiv]
    obtain ⟨hnext, hexit, hncrash⟩ := validate_spec a
      { s with trainIter := s.trainIter + 1, model := b.newModel, optim := b.newOptim } b.metric hck1
    rcases hv : validate a { s with trainIter := s.trainIter + 1, model := b.newModel, optim := b.newOptim } b.metric with s3 | s3 | _
    · simp only [hv] at hred
      obtain ⟨htrial, hep, hcp, hhist⟩ := hnext s3 hv
      have hep2 : s3.epoch = s.epoch := hep
      have hs3 : s3.numTrial < a.maxNumTrial := by
        rcases htrial with h | ⟨h1, h2⟩
        · have h3 : s3.numTrial = s.numTrial := h
          omega
        · have h3 : s3.numTrial = s.numTrial + 1 := h1
          omega
      by_cases hmax : s3.epoch = a.maxEpoch
      · rw [if_pos hmax] at hred
        refine ⟨?_, ?_, ?_⟩
        · intro s2 h2
          rw [hred] at h2
          exact absurd h2 (by simp)
        · intro s2 h2
          rw [hred] at h2
          injection h2 with h2
          subst h2
          exact ⟨Nat.le_of_lt hs3, hep2⟩
        · rw [hred]
          simp
      · rw [if_neg hmax] at hred
        refine ⟨?_, ?_, ?_⟩
        · intro s2 h2
          rw [hred] at h2
          injection h2 with h2
          subst h2
          exact ⟨hs3, hep2, hmax, fun _ => hcp⟩
        · intro s2 h2
          rw [hred] at h2
          exact absurd h2 (by simp)
        · rw [hred]
          simp
    · simp only [hv] at hred
      obtain ⟨ht1, ht2, hep⟩ := hexit s3 hv
      refine ⟨?_, ?_, ?_⟩
      · intro s2 h2
        rw [hred] at h2
        exact absurd h2 (by simp)
      · intro s2 h2
        rw [hred] at h2
        injection h2 with h2
        subst h2
        exact ⟨Nat.le_of_eq ht2, hep⟩
      · rw [hred]
        simp
    · exact absurd hv hncrash
  · have hred : trainBatch a s b =
        if s.epoch = a.maxEpoch then
          .exited { s with trainIter := s.trainIter + 1, model := b.newModel, optim := b.newOptim }
        else .next { s with trainIter := s.trainIter + 1, model := b.newModel, optim := b.newOptim } := by
      simp [trainBatch, hvn, hdiv]
    by_cases hmax : s.epoch = a.maxEpoch
    · rw [if_pos hmax] at hred
      refine ⟨?_, ?_, ?_⟩
      · intro s2 h2
        rw [hred] at h2
        exact absurd h2 (by simp)
      · intro s2 h2
        rw [hred] at h2
        injection h2 with h2
        subst h2
        exact ⟨Nat.le_of_lt htr, rfl⟩
      · rw [hred]
        simp
    · rw [if_neg hmax] at hred
      refine ⟨?_, ?_, ?_⟩
      · intro s2 h2
        rw [hred] at h2
        injection h2 with h2
        subst h2
        exact ⟨htr, rfl, hmax, hck⟩
      · intro s2 h2
        rw [hred] at h2
        exact absurd h2 (by simp)
      · rw [hred]
        simp

theorem runBatches_spec {μ ω : Type} (a : TrainArgs) (hvn : a.validNiter ≠ 0) :
    ∀ (bs : List (BatchIn μ ω)) (s : TrainState μ ω),
      (s.histValidScores ≠ [] → s.checkpoint.isSome) →
      s.numTrial < a.maxNumTrial →
      ((∀ s2, runBatches a s bs = .next s2 →
        s2.numTrial < a.maxNumTrial ∧ s2.epoch = s.epoch ∧
        (s2.histValidScores ≠ [] → s2.checkpoint.isSome) ∧
        (bs ≠ [] → s2.epoch ≠ a.maxEpoch)) ∧
      (∀ s2, runBatches a s bs = .exited s2 →
        s2.numTrial ≤ a.maxNumTrial ∧ s2.epoch = s.epoch) ∧
      runBatches a s bs ≠ .crashed) := by
  intro bs
  induction bs with
  | nil =>
    intro s hck htr
    refine ⟨?_, ?_, ?_⟩
    · intro s2 h2
      rw [runBatches] at h2
      injection h2 with h2
      subst h2
      exact ⟨htr, rfl, hck, fun h => absurd rfl h⟩
    · intro s2 h2
      rw [runBatches] at h2
      exact absurd h2 (by simp)
    · rw [runBatches]
      simp
  | cons b rest ih =>
    intro s hck htr
    obtain ⟨hbn, hbe, hbc⟩ := trainBatch_spec a s b hvn hck htr
    rcases hb : trainBatch a s b with s3 | s3 | _
    · have hred : runBatches a s (b :: rest) = runBatches a s3 rest := by
        rw [runBatches, hb]
      obtain ⟨h3tr, h3ep, h3max, h3ck⟩ := hbn s3 hb
      obtain ⟨ihn, ihe, ihc⟩ := ih s3 h3ck h3tr
      refine ⟨?_, ?_, ?_⟩
      · intro s2 h2
        rw [hred] at h2
        obtain ⟨h2tr, h2ep, h2ck, h2max⟩ := ihn s2 h2
        refine ⟨h2tr, h2ep.trans h3ep, h2ck, fun _ => ?_⟩
        rcases hrest : rest with _ | ⟨b2, rest2⟩
        · rw [hrest, runBatches] at h2
          injection h2 with h2
          subst h2
          exact h3max
        · rw [h2ep.trans h3ep] at h2max ⊢
          exact h2max (by simp [hrest])
      · intro s2 h2
        rw [hred] at h2
        obtain ⟨h2tr, h2ep⟩ := ihe s2 h2
        exact ⟨h2tr, h2ep.trans h3ep⟩
      · rw [hred]
        exact ihc
    · have hred : runBatches a s (b :: rest) = .exited s3 := by
        rw [runBatches, hb]
      obtain ⟨h3tr, h3ep⟩ := hbe s3 hb
      refine ⟨?_, ?_, ?_⟩
      · intro s2 h2
        rw [hred] at h2
        exact absurd h2 (by simp)
      · intro s2 h2
        rw [hred] at h2
        injection h2 with h2
        subst h2
        exact ⟨h3tr, h3ep⟩
      · rw [hred]
        simp
    · exact absurd hb hbc

theorem runBatches_maxEpoch_exits {μ ω : Type} (a : TrainArgs)
    (s : TrainState μ ω) (b : BatchIn μ ω) (rest : List (BatchIn μ ω))
    (hvn : a.validNiter ≠ 0)
    (hck : s.histValidScores ≠ [] → s.checkpoint.isSome)
    (htr : s.numTrial < a.maxNumTrial)
    (he : s.epoch = a.maxEpoch) :
    ∃ s2, runBatches a s (b :: rest) = .exited s2 ∧
      s2.numTrial ≤ a.maxNumTrial ∧ s2.epoch = a.maxEpoch := by
  obtain ⟨hbn, hbe, hbc⟩ := trainBatch_spec a s b hvn hck htr
  rcases hb : trainBatch a s b with s3 | s3 | _
  · obtain ⟨_, h3ep, h3max, _⟩ := hbn s3 hb
    exact absurd (h3ep.trans he) h3max
  · obtain ⟨h3tr, h3ep⟩ := hbe s3 hb
    refine ⟨s3, ?_, h3tr, h3ep.trans he⟩
    rw [runBatches, hb]
  · exact absurd hb hbc

theorem runTraining_spec {μ ω : Type} (a : TrainArgs) (hvn : a.validNiter ≠ 0) :
    ∀ (es : List (List (BatchIn μ ω))) (s : TrainState μ ω),
      (s.histValidScores ≠ [] → s.checkpoint.isSome) →
      s.numTrial < a.maxNumTrial →
      s.epoch < a.maxEpoch →
      (∀ e ∈ es, e ≠ []) →
      ((∀ s2, runTraining a s es = .next s2 →
        s2.numTrial < a.maxNumTrial ∧ s2.epoch < a.maxEpoch ∧
        (s2.histValidScores ≠ [] → s2.checkpoint.isSome)) ∧
      (∀ s2, runTraining a s es = .exited s2 →
        s2.numTrial ≤ a.maxNumTrial ∧ s2.epoch ≤ a.maxEpoch) ∧
      runTraining a s es ≠ .crashed) := by
  intro es
  induction es with
  | nil =>
    intro s hck htr hep hne
    refine ⟨?_, ?_, ?_⟩
    · intro s2 h2
      rw [runTraining] at h2
      injection h2 with h2
      subst h2
      exact ⟨htr, hep, hck⟩
    · intro s2 h2
      rw [runTraining] at h2
      exact absurd h2 (by simp)
    · rw [runTraining]
      simp
  | cons e rest ih =>
    intro s hck htr hep hne
    have hene : e ≠ [] := hne e (List.mem_cons_self e rest)
    have hrne : ∀ e2 ∈ rest, e2 ≠ [] := fun e2 h => hne e2 (List.mem_cons_of_mem e h)
    have hck1 : ({ s with epoch := s.epoch + 1 } : TrainState μ ω).histValidScores ≠ [] →
        ({ s with epoch := s.epoch + 1 } : TrainState μ ω).checkpoint.isSome := hck
    have htr1 : ({ s with epoch := s.epoch + 1 } : TrainState μ ω).numTrial
        < a.maxNumTrial := htr
    by_cases hmax : s.epoch + 1 = a.maxEpoch
    · obtain ⟨b, bs, he1⟩ := List.exists_cons_of_ne_nil hene
      obtain ⟨s2, hex, h2tr, h2ep⟩ := runBatches_maxEpoch_exits a
          { s with epoch := s.epoch + 1 } b bs hvn hck1 htr1 hmax
      have hred : runTraining a s (e :: rest) = .exited s2 := by
        rw [runTraining, runEpoch, he1, hex]
      refine ⟨?_, ?_, ?_⟩
      · intro s3 h3
        rw [hred] at h3
        exact absurd h3 (by simp)
      · intro s3 h3
        rw [hred] at h3
        injection h3 with h3
        subst h3
        exact ⟨h2tr, Nat.le_of_eq h2ep⟩
      · rw [hred]
        simp
    · obtain ⟨hbn, hbe, hbc⟩ := runBatches_spec a hvn e
        { s with epoch := s.epoch + 1 } hck1 htr1
      rcases hb : runBatches a { s with epoch := s.epoch + 1 } e with s3 | s3 | _
      · obtain ⟨h3tr, h3ep, h3ck, _⟩ := hbn s3 hb
        have h3ep2 : s3.epoch = s.epoch + 1 := h3ep
        have h3lt : s3.epoch < a.maxEpoch := by omega
        have hred : runTraining a s (e :: rest) = runTraining a s3 rest := by
          rw [runTraining, runEpoch, hb]
        obtain ⟨ihn, ihe, ihc⟩ := ih s3 h3ck h3tr h3lt hrne
        refine ⟨?_, ?_, ?_⟩
        · intro s4 h4
          rw [hred] at h4
          exact ihn s4 h4
        · intro s4 h4
          rw [hred] at h4
          exact ihe s4 h4
        · rw [hred]
          exact ihc
      · obtain ⟨h3tr, h3ep⟩ := hbe s3 hb
        have h3ep2 : s3.epoch = s.epoch + 1 := h3ep
        have hred : runTraining a s (e :: rest) = .exited s3 := by
          rw [runTraining, runEpoch, hb]
        refine ⟨?_, ?_, ?_⟩
        · intro s4 h4
          rw [hred] at h4
          exact absurd h4 (by simp)
        · intro s4 h4
          rw [hred] at h4
          injection h4 with h4
          subst h4
          exact ⟨h3tr, by omega⟩
        · rw [hred]
          simp
      · exact absurd hb hbc

/-- Counterexample to C2 as stated: with `--max-num-trial 0` the trial
counter exceeds the flag value and training keeps running, because the exit
test is the equality `num_trial == max_num_trial` and `num_trial` jumps from
0 to 1.  Concretely: validation every iteration, patience 1, one epoch of two
batches whose second validation is worse, ends in a running state with
`num_trial = 1 > 0`. -/
theorem train_loop_limits_counterexample :
    ∃ s2, runTraining
        ({ validNiter := 1, patience := 1, maxNumTrial := 0, maxEpoch := 5,
           lrDecay := 1/2, lr0 := 1 } : TrainArgs)
        (initState
          { validNiter := 1, patience := 1, maxNumTrial := 0,
            maxEpoch := 5, lrDecay := 1/2, lr0 := 1 } (0 : Nat) (0 : Nat))
        [[⟨0, 0, 0⟩, ⟨0, 0, -1⟩]] = .next s2 ∧
      s2.numTrial = 1 := by
  exact ⟨_, rfl, rfl⟩

theorem validate_exited_only_at_bound {μ ω : Type} (a : TrainArgs)
    (s : TrainState μ ω) (v : Int) (s2 : TrainState μ ω)
    (h : validate a s v = .exited s2) :
    s2.numTrial = s.numTrial + 1 ∧ s2.numTrial = a.maxNumTrial := by
  rcases hh : s.histValidScores with _ | ⟨h0, t0⟩
  · simp [validate, hh] at h
  · by_cases hlt : listMax h0 t0 < v
    · simp [validate, hh, hlt] at h
    · by_cases hp : s.patience < a.patience
      · by_cases hpe : s.patience + 1 = a.patience
        · by_cases hte : s.numTrial + 1 = a.maxNumTrial
          · have hv : validate a s v = .exited { s with
                histValidScores := s.histValidScores ++ [v],
                patience := s.patience + 1,
                numTrial := s.numTrial + 1 } := by
              simp [validate, hh, hlt, hp, hpe, hte]
            rw [hv] at h
            injection h with h
            subst h
            exact ⟨rfl, hte⟩
          · rcases hckv : s.checkpoint with _ | ⟨cm, co, clr⟩
            · simp [validate, hh, hlt, hp, hpe, hte, hckv] at h
            · simp [validate, hh, hlt, hp, hpe, hte, hckv] at h
        · simp [validate, hh, hlt, hp, hpe] at h
      · simp [validate, hh, hlt, hp] at h

/-- C2 amended: provided `--valid-niter ≥ 1`, `--max-num-trial ≥ 1` and
`--max-epoch ≥ 1` and every epoch has at least one batch, the trial counter
never exceeds `--max-num-trial` and the epoch counter never exceeds
`--max-epoch` (running states keep both strictly below the bounds, exit
states within them, and the loop never crashes); the validation block calls
`exit(0)` exactly when the just-incremented trial counter reaches
`--max-num-trial` — when it does so (given a non-improving score at the
patience bound one trial below the limit), and only then (every `exit(0)`
issued by the validation block has just raised the trial counter to the
bound); and the first batch iteration of the epoch whose counter equals
`--max-epoch` ends in `exit(0)` (the hard stop runs at the end of that batch
iteration, after one more gradient step, not at the moment the counter is
incremented; with `--valid-niter 0` the iteration instead dies at the
`ZeroDivisionError` of `train_iter % valid_niter`). -/
theorem train_loop_limits {μ ω : Type} (a : TrainArgs) (m0 : μ) (o0 : ω) :
    ∀ es : List (List (BatchIn μ ω)),
      1 ≤ a.validNiter → 1 ≤ a.maxNumTrial → 1 ≤ a.maxEpoch →
      (∀ e ∈ es, e ≠ []) →
      ((∀ s2, runTraining a (initState a m0 o0) es = .next s2 →
          s2.numTrial < a.maxNumTrial ∧ s2.epoch < a.maxEpoch) ∧
       (∀ s2, runTraining a (initState a m0 o0) es = .exited s2 →
          s2.numTrial ≤ a.maxNumTrial ∧ s2.epoch ≤ a.maxEpoch) ∧
       runTraining a (initState a m0 o0) es ≠ .crashed) ∧
    (∀ (s : TrainState μ ω) (v h0 : Int) (t0 : List Int),
      s.histValidScores = h0 :: t0 → ¬ listMax h0 t0 < v →
      s.patience + 1 = a.patience → s.numTrial + 1 = a.maxNumTrial →
      ∃ s2, validate a s v = .exited s2 ∧ s2.numTrial = a.maxNumTrial) ∧
    (∀ (s : TrainState μ ω) (v : Int) (s2 : TrainState μ ω),
      validate a s v = .exited s2 →
      s2.numTrial = s.numTrial + 1 ∧ s2.numTrial = a.maxNumTrial) ∧
    (∀ (s : TrainState μ ω) (b : BatchIn μ ω) (rest : List (BatchIn μ ω)),
      (s.histValidScores ≠ [] → s.checkpoint.isSome) →
      s.numTrial < a.maxNumTrial → s.epoch = a.maxEpoch →
      ∃ s2, runBatches a s (b :: rest) = .exited s2) := by
  intro es hv1 h1 h2 hne
  have hvn : a.validNiter ≠ 0 := by omega
  refine ⟨?_, ?_, ?_, ?_⟩
  · obtain ⟨hn, he, hc⟩ := runTraining_spec a hvn es (initState a m0 o0)
      (fun h => absurd rfl h) h1 h2 hne
    exact ⟨fun s2 hs2 => ⟨(hn s2 hs2).1, (hn s2 hs2).2.1⟩, he, hc⟩
  · intro s v h0 t0 hh hlt hpe hte
    have hp : s.patience < a.patience := by omega
    refine ⟨{ s with
      histValidScores := s.histValidScores ++ [v],
      patience := s.patience + 1, numTrial := s.numTrial + 1 }, ?_, hte⟩
    simp [validate, hh, hlt, hp, hpe, hte]
  · intro s v s2 hex
    exact validate_exited_only_at_bound a s v s2 hex
  · intro s b rest hck htr he
    obtain ⟨s2, hex, _, _⟩ := runBatches_maxEpoch_exits a s b rest hvn hck htr he
    exact ⟨s2, hex⟩

/-- Witness for the amended C2: a one-epoch, one-batch run with
`--max-epoch 1` exits within bounds; a concrete validation state one trial
below the bound exits and, by the only-if direction, that exit carries the
trial counter raised exactly to the bound; and a concrete state at the epoch
bound exits on its next batch. -/
theorem train_loop_limits_witness :
    (∃ s2, runTraining
        ({ validNiter := 1, patience := 1, maxNumTrial := 1, maxEpoch := 1,
           lrDecay := 1/2, lr0 := 1 } : TrainArgs)
        (initState
          { validNiter := 1, patience := 1, maxNumTrial := 1,
            maxEpoch := 1, lrDecay := 1/2, lr0 := 1 } (0 : Nat) (0 : Nat))
        [[⟨0, 0, 0⟩]] = .exited s2 ∧ s2.numTrial ≤ 1 ∧ s2.epoch ≤ 1) ∧
    (∃ s2, validate
        ({ validNiter := 1, patience := 1, maxNumTrial := 1, maxEpoch := 1,
           lrDecay := 1/2, lr0 := 1 } : TrainArgs)
        ({ epoch := 1, trainIter := 2, patience := 0, numTrial := 0,
           histValidScores := [0], lr := 1, model := (0 : Nat),
           optim := (0 : Nat), checkpoint := some (0, 0, 1) } : TrainState Nat Nat)
        (-1) = .exited s2 ∧ s2.numTrial = 1) ∧
    (∃ s2, validate
        ({ validNiter := 1, patience := 1, maxNumTrial := 1, maxEpoch := 1,
           lrDecay := 1/2, lr0 := 1 } : TrainArgs)
        ({ epoch := 1, trainIter := 2, patience := 0, numTrial := 0,
           histValidScores := [0], lr := 1, model := (0 : Nat),
           optim := (0 : Nat), checkpoint := some (0, 0, 1) } : TrainState Nat Nat)
        (-1) = .exited s2 ∧ s2.numTrial = 0 + 1 ∧ s2.numTrial = 1) ∧
    (∃ s2, runBatches
        ({ validNiter := 1, patience := 1, maxNumTrial := 1, maxEpoch := 1,
           lrDecay := 1/2, lr0 := 1 } : TrainArgs)
        ({ epoch := 1, trainIter := 2, patience := 0, numTrial := 0,
           histValidScores := [0], lr := 1, model := (0 : Nat),
           optim := (0 : Nat), checkpoint := some (0, 0, 1) } : TrainState Nat Nat)
        [⟨0, 0, 5⟩] = .exited s2) := by
  have h := train_loop_limits
    ({ validNiter := 1, patience := 1, maxNumTrial := 1, maxEpoch := 1,
       lrDecay := 1/2, lr0 := 1 } : TrainArgs) (0 : Nat) (0 : Nat)
    [[⟨0, 0, 0⟩]] (by decide) (by decide) (by decide)
    (by
      intro e he
      rw [List.mem_singleton] at he
      subst he
      exact List.cons_ne_nil _ _)
  refine ⟨⟨_, rfl, h.1.2.1 _ rfl⟩, ?_, ?_, ?_⟩
  · exact h.2.1 _ (-1) 0 [] rfl (by decide) rfl rfl
  · obtain ⟨s2, hex, _⟩ := h.2.1
      ({ epoch := 1, trainIter := 2, patience := 0, numTrial := 0,
         histValidScores := [0], lr := 1, model := (0 : Nat),
         optim := (0 : Nat), checkpoint := some (0, 0, 1) } : TrainState Nat Nat)
      (-1) 0 [] rfl (by decide) rfl rfl
    exact ⟨s2, hex, h.2.2.1 _ (-1) s2 hex⟩
  · exact h.2.2.2 _ ⟨0, 0, 5⟩ [] (fun _ => rfl) (by decide) rfl

/-- C4: an improving validation (the first ever, or one beating the best
historic score) resets patience to 0 and saves the current model and
optimizer as the new best checkpoint; the trial counter is incremented in a
validation step exactly when that step is non-improving and drives patience
up to the `--patience` flag value; and a trial that does not reach
`--max-num-trial` multiplies the learning rate by `--lr-decay`, reloads model
parameters and optimizer state from the saved best checkpoint, resets
patience to 0, and continues. -/
theorem trial_decay_reload {μ ω : Type} (a : TrainArgs) (s : TrainState μ ω)
    (v : Int) :
    (s.histValidScores = [] →
      validate a s v = .next { s with
        histValidScores := s.histValidScores ++ [v],
        patience := 0, checkpoint := some (s.model, s.optim, s.lr) }) ∧
    (∀ h0 t0, s.histValidScores = h0 :: t0 → listMax h0 t0 < v →
      validate a s v = .next { s with
        histValidScores := s.histValidScores ++ [v],
        patience := 0, checkpoint := some (s.model, s.optim, s.lr) }) ∧
    (∀ s2, validate a s v = .next s2 ∨ validate a s v = .exited s2 →
      (s2.numTrial = s.numTrial + 1 ↔
        (∃ h0 t0, s.histValidScores = h0 :: t0 ∧ ¬ listMax h0 t0 < v) ∧
        s.patience + 1 = a.patience)) ∧
    (∀ h0 t0 cm co clr, s.histValidScores = h0 :: t0 → ¬ listMax h0 t0 < v →
      s.patience + 1 = a.patience → s.numTrial + 1 ≠ a.maxNumTrial →
      s.checkpoint = some (cm, co, clr) →
      validate a s v = .next { s with
        histValidScores := s.histValidScores ++ [v],
        numTrial := s.numTrial + 1, model := cm, optim := co,
        lr := s.lr * a.lrDecay, patience := 0 }) := by
  refine ⟨?_, ?_, ?_, ?_⟩
  · intro hh
    simp [validate, hh]
  · intro h0 t0 hh hlt
    simp [validate, hh, hlt]
  · intro s2 hout
    rcases hh : s.histValidScores with _ | ⟨h0, t0⟩
    · have hv : validate a s v = .next { s with
          histValidScores := s.histValidScores ++ [v],
          patience := 0, checkpoint := some (s.model, s.optim, s.lr) } := by
        simp [validate, hh]
      rcases hout with hout | hout <;> rw [hv] at hout
      · injection hout with hout
        subst hout
        constructor
        · intro h3
          exact absurd (show s.numTrial = s.numTrial + 1 from h3) (by omega)
        · rintro ⟨⟨h0, t0, h3, _⟩, _⟩
          exact absurd h3 (by simp)
      · exact absurd hout (by simp)
    · by_cases hlt : listMax h0 t0 < v
      · have hv : validate a s v = .next { s with
            histValidScores := s.histValidScores ++ [v],
            patience := 0, checkpoint := some (s.model, s.optim, s.lr) } := by
          simp [validate, hh, hlt]
        rcases hout with hout | hout <;> rw [hv] at hout
        · injection hout with hout
          subst hout
          constructor
          · intro h3
            exact absurd (show s.numTrial = s.numTrial + 1 from h3) (by omega)
          · rintro ⟨⟨h1, t1, h3, hn3⟩, _⟩
            injection h3 with h3a h3b
            subst h3a
            subst h3b
            exact absurd hlt hn3
        · exact absurd hout (by simp)
      · by_cases hp : s.patience < a.patience
        · by_cases hpe : s.patience + 1 = a.patience
          · by_cases hte : s.numTrial + 1 = a.maxNumTrial
            · have hv : validate a s v = .exited { s with
                  histValidScores := s.histValidScores ++ [v],
                  patience := s.patience + 1,
                  numTrial := s.numTrial + 1 } := by
                simp [validate, hh, hlt, hp, hpe, hte]
              rcases hout with hout | hout <;> rw [hv] at hout
              · exact absurd hout (by simp)
              · injection hout with hout
                subst hout
                exact iff_of_true rfl ⟨⟨h0, t0, rfl, hlt⟩, hpe⟩
            · rcases hckv : s.checkpoint with _ | ⟨cm, co, clr⟩
              · have hv : validate a s v = .crashed := by
                  simp [validate, hh, hlt, hp, hpe, hte, hckv]
                rcases hout with hout | hout <;> rw [hv] at hout <;>
                  exact absurd hout (by simp)
              · have hv : validate a s v = .next { s with
                    histValidScores := s.histValidScores ++ [v],
                    numTrial := s.numTrial + 1, model := cm, optim := co,
                    lr := s.lr * a.lrDecay, patience := 0 } := by
                  simp [validate, hh, hlt, hp, hpe, hte, hckv]
                rcases hout with hout | hout <;> rw [hv] at hout
                · injection hout with hout
                  subst hout
                  exact iff_of_true rfl ⟨⟨h0, t0, rfl, hlt⟩, hpe⟩
                · exact absurd hout (by simp)
          · have hv : validate a s v = .next { s with
                histValidScores := s.histValidScores ++ [v],
                patience := s.patience + 1 } := by
              simp [validate, hh, hlt, hp, hpe]
            rcases hout with hout | hout <;> rw [hv] at hout
            · injection hout with hout
              subst hout
              constructor
              · intro h3
                exact absurd (show s.numTrial = s.numTrial + 1 from h3) (by omega)
              · rintro ⟨_, h3⟩
                exact absurd h3 hpe
            · exact absurd hout (by simp)
        · have hv : validate a s v = .next { s with
              histValidScores := s.histValidScores ++ [v] } := by
            simp [validate, hh, hlt, hp]
          rcases hout with hout | hout <;> rw [hv] at hout
          · injection hout with hout
            subst hout
            constructor
            · intro h3
              exact absurd (show s.numTrial = s.numTrial + 1 from h3) (by omega)
            · rintro ⟨_, h3⟩
              exact absurd (by omega : s.patience < a.patience) hp
          · exact absurd hout (by simp)
  · intro h0 t0 cm co clr hh hlt hpe hte hckv
    have hp : s.patience < a.patience := by omega
    simp [validate, hh, hlt, hp, hpe, hte, hckv]

/-- Witness for C4 on concrete states: the first validation saves a
checkpoint, an improving one saves and resets patience, a non-improving one
at the patience bound triggers a trial that decays the learning rate and
reloads the checkpointed model and optimizer. -/
theorem trial_decay_reload_witness :
    (validate
      ({ validNiter := 1, patience := 1, maxNumTrial := 2, maxEpoch := 5,
         lrDecay := 1/2, lr0 := 1 } : TrainArgs)
      ({ epoch := 1, trainIter := 1, patience := 0, numTrial := 0,
         histValidScores := [], lr := 1, model := (7 : Nat),
         optim := (8 : Nat), checkpoint := none } : TrainState Nat Nat) 0 =
      .next { epoch := 1, trainIter := 1, patience := 0, numTrial := 0,
              histValidScores := [0], lr := 1, model := 7, optim := 8,
              checkpoint := some (7, 8, 1) }) ∧
    (validate
      ({ validNiter := 1, patience := 1, maxNumTrial := 2, maxEpoch := 5,
         lrDecay := 1/2, lr0 := 1 } : TrainArgs)
      ({ epoch := 1, trainIter := 2, patience := 0, numTrial := 0,
         histValidScores := [0], lr := 1, model := (7 : Nat),
         optim := (8 : Nat), checkpoint := some (3, 4, 1) } : TrainState Nat Nat)
      (-1) =
      .next { epoch := 1, trainIter := 2, patience := 0, numTrial := 1,
              histValidScores := [0, -1], lr := 1 * (1/2), model := 3,
              optim := 4, checkpoint := some (3, 4, 1) }) := by
  constructor
  · exact (trial_decay_reload _ _ _).1 rfl
  · exact (trial_decay_reload _ _ _).2.2.2 0 [] 3 4 1 rfl (by decide) rfl
      (by decide) rfl

end NMTRepo
